import Mathlib

/-!
Verification of the SIMD element-wise adder demo (`src/libsimdpp/01-start.cpp`).

The program builds two 8-element `float` arrays `a` and `b`, loads them with
`load_u` into `float32<8>` SIMD registers, adds them lanewise, stores the
result with `store_u` into `c`, and prints `Result: ` followed by the eight
elements, each followed by a space, then a newline, returning 0.

The embedding models IEEE-754 binary32 values exactly: every finite binary32
value is a dyadic rational `m * 2^e`, carried in canonical form (odd mantissa,
or zero with exponent zero), together with infinities and NaN. Lanewise `+`
is exact dyadic addition followed by round-to-nearest-ties-to-even into the
binary32 format, which is the semantics the SIMD library delegates to the
hardware. All definitions are executable by kernel reduction.
-/

set_option maxRecDepth 8192

namespace SimdStart

/-- `2 ^ k` as an integer, computed through the kernel-friendly `ℕ` power. -/
def pw2 (k : ℕ) : ℤ := ((2 ^ k : ℕ) : ℤ)

/-- A dyadic rational `m * 2 ^ e`. The operations below keep values in
canonical form: `m` odd, or `m = 0 ∧ e = 0`, so structural equality of
canonical values coincides with value equality. -/
structure Dy where
  m : ℤ
  e : ℤ
deriving DecidableEq

/-- Fuel-driven canonicalisation: halve the mantissa while it is even. -/
def dyNormF : ℕ → ℤ → ℤ → Dy
  | 0, m, e => ⟨m, e⟩
  | f + 1, m, e =>
    if m = 0 then ⟨0, 0⟩
    else if m % 2 = 0 then dyNormF f (m / 2) (e + 1)
    else ⟨m, e⟩

/-- Canonical dyadic rational with value `m * 2 ^ e`. -/
def Dy.norm (m e : ℤ) : Dy := dyNormF (m.natAbs + 1) m e

/-- The exact rational value of a dyadic number (its meaning). -/
def Dy.toRat (x : Dy) : ℚ :=
  if 0 ≤ x.e then (x.m : ℚ) * (2 ^ x.e.toNat : ℕ) else (x.m : ℚ) / (2 ^ (-x.e).toNat : ℕ)

/-- Exact dyadic addition: align both mantissas at the smaller exponent. -/
def Dy.add (x y : Dy) : Dy :=
  let e := min x.e y.e
  Dy.norm (x.m * pw2 (x.e - e).toNat + y.m * pw2 (y.e - e).toNat) e

/-- Dyadic negation (canonical form is preserved). -/
def Dy.neg (x : Dy) : Dy := ⟨-x.m, x.e⟩

/-- Value comparison of dyadic numbers, by aligning at the smaller exponent. -/
def Dy.ltB (x y : Dy) : Bool :=
  let e := min x.e y.e
  decide (x.m * pw2 (x.e - e).toNat < y.m * pw2 (y.e - e).toNat)

/-- Value order `≤` on dyadic numbers. -/
def Dy.leB (x y : Dy) : Bool :=
  let e := min x.e y.e
  decide (x.m * pw2 (x.e - e).toNat ≤ y.m * pw2 (y.e - e).toNat)

/-- A binary32 datum: a finite value (carried as an exact dyadic rational),
an infinity, or NaN. -/
inductive F32 where
  | finite (x : Dy)
  | posInf
  | negInf
  | nan
deriving DecidableEq

/-- Negation of a binary32 datum (sign flip, exact in IEEE-754). -/
def F32.neg : F32 → F32
  | .finite x => .finite x.neg
  | .posInf => .negInf
  | .negInf => .posInf
  | .nan => .nan

/-- Fuel-driven floor logarithm in base `b`. -/
def natLogF (b : ℕ) : ℕ → ℕ → ℕ
  | 0, _ => 0
  | f + 1, n => if b ≤ n then natLogF b f (n / b) + 1 else 0

/-- Floor of `log_b n` for `1 ≤ n` (0 otherwise). -/
def natLog (b n : ℕ) : ℕ := natLogF b n n

/-- Fuel-driven search for the least `k` with `d ≤ n * b ^ k`. -/
def upCountF (b : ℕ) : ℕ → ℕ → ℕ → ℕ
  | 0, _, _ => 0
  | f + 1, n, d => if d ≤ n then 0 else upCountF b f (n * b) d + 1

/-- Least `k` with `d ≤ n * b ^ k`, for `1 ≤ n`, `2 ≤ b` (fuel `d` suffices). -/
def upCount (b n d : ℕ) : ℕ := upCountF b d n d

/-- Round `n / d` to the nearest integer, ties to even, for `0 ≤ n`, `0 < d`. -/
def rneDiv (n d : ℤ) : ℤ :=
  let q := n / d
  let r := n % d
  if 2 * r < d then q
  else if d < 2 * r then q + 1
  else if q % 2 = 0 then q else q + 1

/-- Largest finite binary32 value, `(2^24 - 1) * 2^104`. -/
def maxFin : Dy := ⟨2 ^ 24 - 1, 104⟩

/-- Round a positive dyadic rational (`0 < m`) into binary32 under
round-to-nearest-ties-to-even: the unit in the last place has exponent
`g = max (E - 23) (-149)` where `E` is the floor base-2 logarithm of the
value; the scaled significand is rounded to an integer with ties to even;
results past the format maximum overflow to `+∞`. -/
def roundPos (x : Dy) : F32 :=
  let E : ℤ := x.e + (natLog 2 x.m.toNat : ℤ)
  let g := max (E - 23) (-149 : ℤ)
  let v : Dy :=
    if g ≤ x.e then Dy.norm x.m x.e
    else Dy.norm (rneDiv x.m (pw2 (g - x.e).toNat)) g
  if Dy.ltB maxFin v then F32.posInf else F32.finite v

/-- Round an exact dyadic rational into binary32 under
round-to-nearest-ties-to-even. -/
def roundF32 (x : Dy) : F32 :=
  if x.m = 0 then F32.finite ⟨0, 0⟩
  else if 0 < x.m then roundPos x
  else F32.neg (roundPos ⟨-x.m, x.e⟩)

/-- IEEE-754 binary32 addition on the model: NaN propagates, opposite
infinities give NaN, an infinity absorbs finite values, and finite values
add exactly and then round (round-to-nearest-ties-to-even). -/
def F32.add : F32 → F32 → F32
  | .nan, _ => .nan
  | _, .nan => .nan
  | .posInf, .negInf => .nan
  | .negInf, .posInf => .nan
  | .posInf, _ => .posInf
  | _, .posInf => .posInf
  | .negInf, _ => .negInf
  | _, .negInf => .negInf
  | .finite p, .finite q => roundF32 (p.add q)

/-- Exact representability of a dyadic rational in binary32: after
canonicalisation, zero, or an odd mantissa below `2^24` with exponent at
least `-149` and magnitude at most `maxFin`. -/
def isRepr (x : Dy) : Prop :=
  let n := Dy.norm x.m x.e
  n.m = 0 ∨ (n.m.natAbs < 2 ^ 24 ∧ -149 ≤ n.e ∧
    Dy.leB ⟨n.m.natAbs, n.e⟩ maxFin = true)

instance (x : Dy) : Decidable (isRepr x) := by
  unfold isRepr
  infer_instance

/-! ### Decimal formatting (`std::cout << float`, default precision 6)

The default ostream conversion of a `float` is the `%g` conversion with
precision 6: round to 6 significant decimal digits, use fixed notation when
the decimal exponent lies in `[-4, 6)` and scientific notation otherwise,
and strip trailing zeros (and a trailing decimal point). -/

/-- Fuel-driven most-significant-first decimal digits (empty list for 0). -/
def natDigitsF : ℕ → ℕ → List ℕ
  | 0, _ => []
  | f + 1, n => if n = 0 then [] else natDigitsF f (n / 10) ++ [n % 10]

/-- Decimal digits of a natural number, most significant first. -/
def natDigits (n : ℕ) : List ℕ := natDigitsF n n

/-- The character for a decimal digit. -/
def digitChar : ℕ → Char
  | 0 => '0'
  | 1 => '1'
  | 2 => '2'
  | 3 => '3'
  | 4 => '4'
  | 5 => '5'
  | 6 => '6'
  | 7 => '7'
  | 8 => '8'
  | 9 => '9'
  | _ => '?'

/-- Remove trailing zero digits. -/
def stripZeros (ds : List ℕ) : List ℕ := (ds.reverse.dropWhile (fun d => d == 0)).reverse

/-- Floor of a positive dyadic rational, as an integer. -/
def dyFloorPos (x : Dy) : ℤ :=
  if 0 ≤ x.e then x.m * pw2 x.e.toNat else x.m / pw2 (-x.e).toNat

/-- Floor base-10 logarithm of a positive dyadic rational. -/
def dyLog10 (x : Dy) : ℤ :=
  if Dy.leB ⟨1, 0⟩ x then (natLog 10 (dyFloorPos x).toNat : ℤ)
  else -(upCount 10 x.m.toNat (2 ^ (-x.e).toNat) : ℤ)

/-- Fixed-notation rendering of the 6 rounded significant digits `D`
(`10^5 ≤ D < 10^6`) at decimal exponent `X`, trailing zeros stripped. -/
def fixedForm (D : ℕ) (X : ℤ) : String :=
  let ds := natDigits D
  if 0 ≤ X then
    let ip := ds.take (X.toNat + 1)
    let fp := stripZeros (ds.drop (X.toNat + 1))
    String.mk (ip.map digitChar) ++
      (if fp.isEmpty then String.mk [] else String.mk ('.' :: fp.map digitChar))
  else
    let fp := stripZeros ds
    String.mk (('0' :: '.' :: List.replicate (-(X + 1)).toNat '0') ++ fp.map digitChar)

/-- Scientific-notation rendering of the 6 rounded significant digits `D` at
decimal exponent `X`: mantissa with trailing zeros stripped, `e`, a sign, and
the exponent padded to at least two digits. -/
def sciForm (D : ℕ) (X : ℤ) : String :=
  let ds := natDigits D
  let tl := stripZeros (ds.drop 1)
  let mant := String.mk ((ds.take 1).map digitChar) ++
    (if tl.isEmpty then String.mk [] else String.mk ('.' :: tl.map digitChar))
  let sgn := if X < 0 then String.mk ['-'] else String.mk ['+']
  let a := X.natAbs
  let es := if a < 10 then String.mk ('0' :: (natDigits a).map digitChar)
    else String.mk ((natDigits a).map digitChar)
  mant ++ String.mk ['e'] ++ sgn ++ es

/-- Conversion of a positive dyadic rational in the %g style at precision 6:
round to 6 significant decimal digits (ties to even on the exact value),
then choose fixed or scientific notation by the decimal exponent. -/
def fmt6 (x : Dy) : String :=
  let X := dyLog10 x
  let num := x.m * pw2 x.e.toNat * ((10 ^ (5 - X).toNat : ℕ) : ℤ)
  let den := pw2 (-x.e).toNat * ((10 ^ (X - 5).toNat : ℕ) : ℤ)
  let D0 := (rneDiv num den).toNat
  let D := if D0 = 10 ^ 6 then 10 ^ 5 else D0
  let Y := if D0 = 10 ^ 6 then X + 1 else X
  if Y < -4 ∨ 6 ≤ Y then sciForm D Y else fixedForm D Y

/-- Default ostream rendering of a binary32 datum. -/
def fmtF32 : F32 → String
  | .nan => String.mk ['n', 'a', 'n']
  | .posInf => String.mk ['i', 'n', 'f']
  | .negInf => String.mk ['-', 'i', 'n', 'f']
  | .finite x =>
    if x.m = 0 then String.mk ['0']
    else if 0 < x.m then fmt6 x
    else String.mk ['-'] ++ fmt6 ⟨-x.m, x.e⟩

/-! ### The program (`main` of `01-start.cpp`) -/

/-- Line 8: `float a[] = {1.0f, ..., 8.0f};`. -/
def aArr : List F32 :=
  [F32.finite (Dy.norm 1 0), F32.finite (Dy.norm 2 0), F32.finite (Dy.norm 3 0),
   F32.finite (Dy.norm 4 0), F32.finite (Dy.norm 5 0), F32.finite (Dy.norm 6 0),
   F32.finite (Dy.norm 7 0), F32.finite (Dy.norm 8 0)]

/-- Line 9: `float b[] = {8.0f, ..., 1.0f};`. -/
def bArr : List F32 :=
  [F32.finite (Dy.norm 8 0), F32.finite (Dy.norm 7 0), F32.finite (Dy.norm 6 0),
   F32.finite (Dy.norm 5 0), F32.finite (Dy.norm 4 0), F32.finite (Dy.norm 3 0),
   F32.finite (Dy.norm 2 0), F32.finite (Dy.norm 1 0)]

/-- Line 12: `float c[8];` — eight uninitialised cells. -/
def cInit : List (Option F32) := List.replicate 8 none

/-- Unaligned load (`load_u`) of 8 lanes from the start of an array. -/
def load_u (mem : List F32) : List F32 := mem.take 8

/-- simdpp lanewise `operator+` on `float32<8>` registers. -/
def simdAdd (v w : List F32) : List F32 := List.zipWith F32.add v w

/-- Unaligned store (`store_u`) of 8 lanes to the start of an array. -/
def store_u (mem : List (Option F32)) (v : List F32) : List (Option F32) :=
  (v.take 8).map some ++ mem.drop 8

/-- Line 15: `float32<8> vec_a = load_u(a);`. -/
def vecA : List F32 := load_u aArr

/-- Line 16: `float32<8> vec_b = load_u(b);`. -/
def vecB : List F32 := load_u bArr

/-- Line 19: `float32<8> vec_c = vec_a + vec_b;`. -/
def vecC : List F32 := simdAdd vecA vecB

/-- Line 22: `store_u(c, vec_c);` — the contents of `c` afterwards. -/
def cArr : List (Option F32) := store_u cInit vecC

/-- Lines 15–22 as a function of the two input arrays: load both, add
lanewise (the store then writes the result out unchanged). -/
def adder (x y : List F32) : List F32 := simdAdd (load_u x) (load_u y)

/-- Reading `c[i]` in the print loop (NaN stands for an indeterminate
uninitialised read; the proofs show it is never produced). -/
def readC (mem : List (Option F32)) (i : ℕ) : F32 := (mem.getD i none).getD F32.nan

/-- The index sequence of the loop `for (int i = 0; i < 8; i++)`. -/
def loopIdx : List ℕ := List.range 8

/-- Lines 25–29: the text written to standard output: `Result: `, then each
element followed by one space, then the newline of `std::endl`. -/
def reportLine (mem : List (Option F32)) : String :=
  String.mk ['R', 'e', 's', 'u', 'l', 't', ':', ' '] ++
    String.join (loopIdx.map (fun i => fmtF32 (readC mem i) ++ String.mk [' '])) ++
    String.mk ['\n']

/-- The whole process: `int main()` binds no argv and reads no environment,
produces the report on stdout, and returns 0 (line 31). -/
def mainRun (_args : List String) (_env : List (String × String)) : String × ℕ :=
  (reportLine cArr, 0)

/-- Standard output of a run of the program. -/
def progOutput : String := (mainRun [] []).1

/-! ### Memory access trace

After the three arrays are constructed, the program touches them in this
order: `load_u(a)` reads `a[0..7]`, `load_u(b)` reads `b[0..7]`,
`store_u(c, vec_c)` writes `c[0..7]`, and the print loop reads `c[0..7]`.
The trace lists these accesses; the frame and bounds claims are statements
about it. -/

/-- The three stack arrays of `main`. -/
inductive Arr where
  | a
  | b
  | c
deriving DecidableEq

/-- One array access: a read or a write of one element. -/
inductive MemEvent where
  | read (ar : Arr) (i : ℕ)
  | write (ar : Arr) (i : ℕ)
deriving DecidableEq

/-- The element index an event touches. -/
def MemEvent.idx : MemEvent → ℕ
  | .read _ i => i
  | .write _ i => i

/-- Whether an event writes the given array. -/
def MemEvent.isWriteTo (ar : Arr) : MemEvent → Bool
  | .write x _ => x == ar
  | _ => false

/-- Whether an event reads the given array. -/
def MemEvent.isReadOf (ar : Arr) : MemEvent → Bool
  | .read x _ => x == ar
  | _ => false

/-- The array accesses of `main` after construction, in program order:
lines 15, 16, 22, and the loop of lines 26–28. -/
def trace : List MemEvent :=
  (List.range 8).map (fun i => MemEvent.read Arr.a i) ++
  (List.range 8).map (fun i => MemEvent.read Arr.b i) ++
  (List.range 8).map (fun i => MemEvent.write Arr.c i) ++
  (List.range 8).map (fun i => MemEvent.read Arr.c i)

/-! ### Scanner for the specified output shape

`^Result:( -?[0-9]+(\.[0-9]+)?)+ ?\n$`, plus the count of numeric fields.
The scanner consumes the literal head, then greedily one space-prefixed
numeric field at a time, then an optional space, then the final newline;
it returns the number of fields on success. -/

/-- Consume an expected literal. -/
def dropLit : List Char → List Char → Option (List Char)
  | [], cs => some cs
  | p :: ps, c :: cs => if p = c then dropLit ps cs else none
  | _ :: _, [] => none

/-- Is this a decimal digit character? -/
def isDig (c : Char) : Bool := decide ('0' ≤ c) && decide (c ≤ '9')

/-- Consume a maximal run of digits, counting them. -/
def takeDigs : List Char → ℕ × List Char
  | [] => (0, [])
  | c :: cs =>
    if isDig c then
      let p := takeDigs cs
      (p.1 + 1, p.2)
    else (0, c :: cs)

/-- Consume one numeric field `-?[0-9]+(\.[0-9]+)?`. -/
def eatNum (cs : List Char) : Option (List Char) :=
  let cs1 := match cs with
    | '-' :: r => r
    | _ => cs
  let p := takeDigs cs1
  if p.1 = 0 then none
  else
    match p.2 with
    | '.' :: r2 =>
      let p2 := takeDigs r2
      if p2.1 = 0 then some ('.' :: r2) else some p2.2
    | r => some r

/-- Greedily consume space-prefixed numeric fields, counting them. -/
def eatFields : ℕ → List Char → ℕ × List Char
  | 0, cs => (0, cs)
  | f + 1, cs =>
    match cs with
    | ' ' :: r =>
      match eatNum r with
      | some r2 =>
        let p := eatFields f r2
        (p.1 + 1, p.2)
      | none => (0, ' ' :: r)
    | _ => (0, cs)

/-- Match a whole line against the specified shape, returning the number of
numeric fields on success. -/
def scanLine (s : String) : Option ℕ :=
  match dropLit ['R', 'e', 's', 'u', 'l', 't', ':'] s.data with
  | none => none
  | some r =>
    let p := eatFields s.data.length r
    if p.1 = 0 then none
    else
      let r3 := match p.2 with
        | ' ' :: t => t
        | t => t
      match r3 with
      | ['\n'] => some p.1
      | _ => none

/-- Boolean match against the specified regular expression. -/
def matchesResultLine (s : String) : Bool := (scanLine s).isSome

/-- The dyadic payload of a finite datum (zero for non-finite data). -/
def F32.fin : F32 → Dy
  | .finite x => x
  | _ => ⟨0, 0⟩

/-! ### Shared lemmas -/

/-- Dyadic addition is commutative. -/
theorem dy_add_comm (x y : Dy) : x.add y = y.add x := by
  simp only [Dy.add]
  rw [min_comm y.e x.e, Int.add_comm]

/-- Binary32 addition on the model is commutative (rounding is a function of
the exact sum; the infinity and NaN cases are symmetric). -/
theorem f32_add_comm (x y : F32) : F32.add x y = F32.add y x := by
  cases x <;> cases y <;> simp [F32.add, dy_add_comm]

/-- Element access under `zipWith`, within both lengths. -/
theorem getD_zipWith_add (xs : List F32) :
    ∀ (ys : List F32) (i : ℕ), i < xs.length → i < ys.length →
      (List.zipWith F32.add xs ys).getD i F32.nan =
        F32.add (xs.getD i F32.nan) (ys.getD i F32.nan) := by
  induction xs with
  | nil =>
    intro ys i h1 _
    simp at h1
  | cons x xs ih =>
    intro ys i h1 h2
    cases ys with
    | nil => simp at h2
    | cons y ys =>
      cases i with
      | zero => rfl
      | succ n =>
        simp only [List.zipWith, List.getD, List.length_cons] at *
        exact ih ys n (by omega) (by omega)

/-! ### The claims -/

/-- C1: for the literal inputs `a = (1,…,8)` and `b = (8,…,1)`, the stored
output array holds exactly `(9,9,9,9,9,9,9,9)`, and each lane's exact sum is
representable in binary32, so the rounding step is the identity on it. -/
theorem c1_literal_sums_exact :
    cArr = List.replicate 8 (some (F32.finite (Dy.norm 9 0))) ∧
    ∀ i, i < 8 →
      isRepr ((aArr.getD i F32.nan).fin.add (bArr.getD i F32.nan).fin) ∧
      roundF32 ((aArr.getD i F32.nan).fin.add (bArr.getD i F32.nan).fin) =
        F32.finite ((aArr.getD i F32.nan).fin.add (bArr.getD i F32.nan).fin) := by
  decide

/-- Witness for C1 at lane 0. -/
theorem c1_witness :
    0 < 8 ∧ isRepr ((aArr.getD 0 F32.nan).fin.add (bArr.getD 0 F32.nan).fin) :=
  ⟨by decide, (c1_literal_sums_exact.2 0 (by decide)).1⟩

/-- C2: for any two 8-element input arrays, the adder produces 8 lanes, and
every output lane with finite inputs is the exact sum of the input lanes
rounded to binary32 under round-to-nearest-ties-to-even. -/
theorem c2_elementwise_rne (A B : List F32) (hA : A.length = 8) (hB : B.length = 8) :
    (adder A B).length = 8 ∧
    ∀ i, i < 8 → ∀ p q, A.getD i F32.nan = F32.finite p → B.getD i F32.nan = F32.finite q →
      (adder A B).getD i F32.nan = roundF32 (p.add q) := by
  have hta : A.take 8 = A := List.take_of_length_le (by omega)
  have htb : B.take 8 = B := List.take_of_length_le (by omega)
  unfold adder load_u simdAdd
  rw [hta, htb]
  constructor
  · rw [List.length_zipWith, hA, hB]
    rfl
  · intro i hi p q hp hq
    rw [getD_zipWith_add A B i (by omega) (by omega), hp, hq]
    rfl

/-- Witness for C2: the concrete arrays of the program at lane 0. -/
theorem c2_witness :
    (adder aArr bArr).getD 0 F32.nan = roundF32 ((Dy.norm 1 0).add (Dy.norm 8 0)) :=
  (c2_elementwise_rne aArr bArr (by decide) (by decide)).2 0 (by decide)
    (Dy.norm 1 0) (Dy.norm 8 0) (by decide) (by decide)

/-- C3: the program writes exactly one line, `Result: ` followed by the 8
elements each followed by one space and then a newline; the line matches
`Result:( -?[0-9]+(\.[0-9]+)?)+ ?\n` anchored at both ends, with 8 fields. -/
theorem c3_output_shape :
    progOutput = ("Result: 9 9 9 9 9 9 9 9 \n" : String) ∧
    matchesResultLine progOutput = true ∧
    scanLine progOutput = some 8 ∧
    progOutput.data.count '\n' = 1 := by
  decide

/-- C4: the adder is commutative — swapping the two input arrays yields an
identical output array, and on the program's literals an identical printed
line. -/
theorem c4_swap_inputs :
    (∀ x y : List F32, adder x y = adder y x) ∧
    reportLine (store_u cInit (simdAdd (load_u bArr) (load_u aArr))) = reportLine cArr := by
  constructor
  · intro x y
    exact List.zipWith_comm_of_comm F32.add f32_add_comm (x.take 8) (y.take 8)
  · decide

/-- C5: the program returns 0 on every run; there is no other exit path. -/
theorem c5_exit_zero :
    (∀ (args : List String) (env : List (String × String)), (mainRun args env).2 = 0) ∧
    (mainRun [] []).2 = 0 :=
  ⟨fun _ _ => rfl, rfl⟩

/-- C6: after construction, no access writes `a` or `b`; the writes to `c`
are exactly the store's eight lane writes (one per index), and every write
to `c` precedes every read of `c`. -/
theorem c6_frame :
    trace.countP (MemEvent.isWriteTo Arr.a) = 0 ∧
    trace.countP (MemEvent.isWriteTo Arr.b) = 0 ∧
    trace.filter (MemEvent.isWriteTo Arr.c) =
      (List.range 8).map (fun i => MemEvent.write Arr.c i) ∧
    ∀ i, i < trace.length → ∀ j, j < trace.length →
      (trace.getD i (MemEvent.read Arr.a 0)).isWriteTo Arr.c = true →
      (trace.getD j (MemEvent.read Arr.a 0)).isReadOf Arr.c = true → i < j := by
  decide

/-- Witness for C6: the store's first write (position 16) precedes the
loop's first read (position 24). -/
theorem c6_witness : 16 < trace.length ∧ (16 : ℕ) < 24 :=
  ⟨by decide, c6_frame.2.2.2 16 (by decide) 24 (by decide) (by decide) (by decide)⟩

/-- C7: the only loop is the reporter loop, which runs exactly the 8 fixed
indices 0–7; the whole run reduces to a concrete final answer. -/
theorem c7_terminates :
    loopIdx = [0, 1, 2, 3, 4, 5, 6, 7] ∧ loopIdx.length = 8 ∧
    mainRun [] [] = (("Result: 9 9 9 9 9 9 9 9 \n" : String), 0) := by
  decide

/-- C8: the program reads neither its argument list nor its environment:
any two invocations produce the same output and exit code. -/
theorem c8_deterministic :
    ∀ (args1 args2 : List String) (env1 env2 : List (String × String)),
      mainRun args1 env1 = mainRun args2 env2 :=
  fun _ _ _ _ => rfl

/-- C9: every access in the trace is in bounds (index below 8); the loads
read exactly `a[0..7]` and `b[0..7]`, the store writes exactly `c[0..7]`,
the loop reads exactly `c[0..7]`, and every read of `c` is preceded by a
write of the same index (so no uninitialised cell is ever read). -/
theorem c9_bounds_init :
    (∀ i, i < trace.length → (trace.getD i (MemEvent.read Arr.a 0)).idx < 8) ∧
    trace.filter (MemEvent.isReadOf Arr.a) =
      (List.range 8).map (fun i => MemEvent.read Arr.a i) ∧
    trace.filter (MemEvent.isReadOf Arr.b) =
      (List.range 8).map (fun i => MemEvent.read Arr.b i) ∧
    trace.filter (MemEvent.isReadOf Arr.c) =
      (List.range 8).map (fun i => MemEvent.read Arr.c i) ∧
    ∀ j, j < trace.length →
      (trace.getD j (MemEvent.read Arr.a 0)).isReadOf Arr.c = true →
      ∃ i, i < j ∧
        trace.getD i (MemEvent.read Arr.a 0) =
          MemEvent.write Arr.c (trace.getD j (MemEvent.read Arr.a 0)).idx := by
  decide

/-- Witness for C9: position 0 of the trace is in bounds. -/
theorem c9_witness : 0 < trace.length ∧ (trace.getD 0 (MemEvent.read Arr.a 0)).idx < 8 :=
  ⟨by decide, c9_bounds_init.1 0 (by decide)⟩

/-- C10: each of the eight printed tokens is exactly the single character
`9`, the default ostream rendering of the binary32 value 9. -/
theorem c10_tokens :
    loopIdx.map (fun i => fmtF32 (readC cArr i)) = List.replicate 8 ("9" : String) := by
  decide

end SimdStart
